import Mathlib

/-!
Shallow embedding of the node-graph editor core of `flow-builder.py`
(sabarna17/sap_voyager): the scene data model (nodes, edges, incident-edge
lists), the deletion operations `Node.delete` / `Edge.delete`, the pointer
handlers `mouseMoveEvent` / `mouseReleaseEvent`, the deferred callback
`safe_remove_highlight`, and the document codec `export_to_json` /
`import_from_json`.

Modelling conventions:
* A Python object's identity (`id(obj)`) is modelled as a `Nat` carried in
  the `nid` / `eid` fields; scenes reachable by the program have pairwise
  distinct identities, which appears as `Nodup` hypotheses where needed.
* `str(id(obj))`, used by the codec as the serialized node identifier, is
  modelled by the injective encoding `idStr`.
* A Qt scene is a collection of items; we keep the `Node` items and the
  `Edge` items in two lists (the code always filters items with
  `isinstance` before touching them, so the interleaving is irrelevant).
* `dict.get(key, default)` on JSON records is modelled with `Option.getD`;
  a record field that is absent is `none`.
* Geometric hit-testing (`itemAt`, handle distance checks) depends on Qt
  font metrics and view transforms; the handlers receive its outcome as an
  explicit parameter (`hit`, `nearHandle`), exactly as the surrounding
  control flow consumes it.
-/

namespace FlowBuilder

/-- A `Node` item of the scene: `nid` is the Python object identity,
`connections` is the `self.connections` list of incident edges (kept as a
list of edge identities, in append order). -/
structure Node where
  nid : Nat
  title : String
  description : String
  x : Int
  y : Int
  highlighted : Bool
  connections : List Nat
deriving DecidableEq, Repr

/-- An `Edge` item of the scene: `end_nid`/`end_handle` are `None` while the
edge is provisional (being dragged); `temporary_end` is the free-floating
endpoint used only in that state. -/
structure Edge where
  eid : Nat
  start_nid : Nat
  start_handle : Int
  end_nid : Option Nat
  end_handle : Option Int
  temporary_end : Option (Int × Int)
deriving DecidableEq, Repr

/-- The `QGraphicsScene` contents relevant to the graph editor. -/
structure Scene where
  nodes : List Node
  edges : List Edge
deriving DecidableEq, Repr

/-! ## Deletion operations -/

/-- `Node.delete` from the source: if the node is in a scene, remove every
edge listed in `self.connections` from the scene, then remove the node
itself.  Nothing else is touched; in particular the `connections` lists of
the other endpoints of the removed edges are left as they are. -/
def Node.delete (s : Scene) (nid : Nat) : Scene :=
  match s.nodes.find? (fun n => n.nid = nid) with
  | none => s
  | some n =>
    { nodes := s.nodes.filter (fun m => m.nid ≠ nid),
      edges := s.edges.filter (fun e => e.eid ∉ n.connections) }

/-- `Edge.delete` from the source: if the edge is in a scene, remove it from
the scene.  Node `connections` lists are not touched. -/
def Edge.delete (s : Scene) (eid : Nat) : Scene :=
  if s.edges.any (fun e => e.eid = eid) then
    { s with edges := s.edges.filter (fun e => e.eid ≠ eid) }
  else s

/-! ## Pointer handlers -/

/-- `FlowView.mouseMoveEvent` while an edge drag is active
(`self.current_edge` is not `None`; `current_edge = none` models the idle
branch that just delegates to Qt).  `hit` is the result of
`self.itemAt(event.pos())` filtered through `isinstance(item, Node)`:
`some nid` when the item under the pointer is the node `nid`, `none`
otherwise.  The drag branch moves the provisional edge's free endpoint and
then either highlights the hit node, or — only when no node is hit —
clears the highlight of every highlighted node. -/
def mouseMoveEvent (s : Scene) (current_edge : Option Nat) (hit : Option Nat)
    (pos : Int × Int) : Scene :=
  match current_edge with
  | none => s
  | some ce =>
    let s1 : Scene :=
      { s with edges := s.edges.map (fun e =>
          if e.eid = ce then { e with temporary_end := some pos } else e) }
    match hit with
    | some nid =>
      { s1 with nodes := s1.nodes.map (fun n =>
          if n.nid = nid then { n with highlighted := true } else n) }
    | none =>
      { s1 with nodes := s1.nodes.map (fun n =>
          if n.highlighted then { n with highlighted := false } else n) }

/-- The `if self.current_edge and self.current_edge.scene() is not None:
self.scene.removeItem(self.current_edge)` step of `mouseReleaseEvent`. -/
def removeCurrentEdge (s : Scene) (ceid : Nat) : Scene :=
  if s.edges.any (fun e => e.eid = ceid) then
    { s with edges := s.edges.filter (fun e => e.eid ≠ ceid) }
  else s

/-- The `for i in range(2): if (node_point - h).manhattanLength() < 20`
search of `mouseReleaseEvent`: the first of the two handles of the hit node
that is within the hit radius, if any.  The geometric test itself is the
oracle `nearHandle`. -/
def findNearHandle (nearHandle : Nat → Bool) : Option Nat :=
  if nearHandle 0 then some 0 else if nearHandle 1 then some 1 else none

/-- `start_node.connections.append(edge)`: append `eid` to the
`connections` list of the node whose identity is `nid`. -/
def appendConn (ns : List Node) (nid : Nat) (eid : Nat) : List Node :=
  ns.map (fun n =>
    if n.nid = nid then { n with connections := n.connections ++ [eid] } else n)

/-- `FlowView.mouseReleaseEvent` while an edge drag is active.  `origin`,
`origin_handle` are `self.drag_start`, `ceid` the provisional edge,
`hit` the `itemAt` result filtered through `isinstance(item, Node)`, and
`newEid` the identity of the `Edge` object a successful drop creates.
A drop on a handle of a node other than the origin removes the provisional
edge, creates a finalized edge, appends it to both endpoints' `connections`
and highlights the target; every other outcome just removes the provisional
edge. -/
def mouseReleaseEvent (s : Scene) (origin : Nat) (origin_handle : Int)
    (ceid : Nat) (hit : Option Nat) (nearHandle : Nat → Bool) (newEid : Nat) :
    Scene :=
  match hit with
  | some tgt =>
    if tgt ≠ origin then
      match findNearHandle nearHandle with
      | some i =>
        let s1 := removeCurrentEdge s ceid
        let e : Edge :=
          { eid := newEid, start_nid := origin, start_handle := origin_handle,
            end_nid := some tgt, end_handle := some (Int.ofNat i),
            temporary_end := none }
        { nodes :=
            appendConn
              (appendConn
                (s1.nodes.map (fun n =>
                  if n.nid = tgt then { n with highlighted := true } else n))
                origin newEid)
              tgt newEid,
          edges := s1.edges ++ [e] }
      | none => removeCurrentEdge s ceid
    else removeCurrentEdge s ceid
  | none => removeCurrentEdge s ceid

/-! ## Document codec -/

/-- A record of the `nodes` array of the JSON document.  `none` models an
absent key; `node_data.get(k, default)` then yields the default. -/
structure NodeRecord where
  id : Option String
  title : Option String
  description : Option String
  x : Option Int
  y : Option Int
deriving DecidableEq, Repr

/-- A record of the `edges` array of the JSON document (ids already passed
through `str(...)`, as `import_from_json` does eagerly). -/
structure EdgeRecord where
  start_id : Option String
  start_handle : Option Int
  end_id : Option String
  end_handle : Option Int
deriving DecidableEq, Repr

/-- The serialized document `{nodes: [...], edges: [...]}`. -/
structure Document where
  nodes : List NodeRecord
  edges : List EdgeRecord
deriving DecidableEq, Repr

/-- Stands for Python `str(id(obj))`: object identities of live objects are
pairwise distinct, so their string forms are too.  We realize the map by an
explicitly injective encoding (the concrete digits CPython would print are
irrelevant to the codec, which only compares these strings for equality). -/
def idStr (k : Nat) : String := String.mk (List.replicate k '*')

theorem idStr_injective : Function.Injective idStr := by
  intro a b h
  have h2 := congrArg (fun s => s.data.length) h
  simpa [idStr] using h2

/-- The `node_data` dictionary `export_to_json` builds for a `Node`. -/
def nodeRecordOf (n : Node) : NodeRecord :=
  { id := some (idStr n.nid), title := some n.title,
    description := some n.description, x := some n.x, y := some n.y }

/-- The `edge_data` dictionary `export_to_json` builds for an `Edge`. -/
def edgeRecordOf (e : Edge) : EdgeRecord :=
  { start_id := some (idStr e.start_nid), start_handle := some e.start_handle,
    end_id := e.end_nid.map idStr, end_handle := e.end_handle }

/-- `FlowView.export_to_json` (the document it writes): every `Node` item of
the scene, then every `Edge` item whose `end_node is not None`. -/
def export_to_json (s : Scene) : Document :=
  { nodes := s.nodes.map nodeRecordOf,
    edges := (s.edges.filter (fun e => e.end_nid.isSome)).map edgeRecordOf }

/-- `node_mapping.get(key)`: the Python dict is built by assignments where a
later assignment to the same key overwrites; we model it as a list to which
`insert` prepends, so lookup finds the most recent binding first. -/
def lookupId : List (String × Nat) → String → Option Nat
  | [], _ => none
  | p :: ps, k => if p.1 = k then some p.2 else lookupId ps k

/-- The mutable state of `import_from_json` while it replays the document:
the scene being built, `node_mapping`, the next fresh object identity, and
the number of `logging.warning` calls issued for skipped edges. -/
structure ImpState where
  scene : Scene
  mapping : List (String × Nat)
  next : Nat
  warnings : Nat
deriving DecidableEq, Repr

/-- One iteration of the node loop of `import_from_json`: create the node
with defaults `title="Node"`, `x=0`, `y=0`, `description=""`, add it to the
scene, and map `str(node_id)` — or `str(id(node))` when the record has no
id — to it. -/
def importNode (st : ImpState) (r : NodeRecord) : ImpState :=
  let n : Node :=
    { nid := st.next, title := r.title.getD "Node",
      description := r.description.getD "", x := r.x.getD 0, y := r.y.getD 0,
      highlighted := false, connections := [] }
  let key : String :=
    match r.id with
    | some i => i
    | none => idStr st.next
  { scene := { nodes := st.scene.nodes ++ [n], edges := st.scene.edges },
    mapping := (key, st.next) :: st.mapping,
    next := st.next + 1, warnings := st.warnings }

/-- One iteration of the edge loop of `import_from_json`: resolve both ids
through `node_mapping`; on failure log a warning and continue, on success
create a finalized edge with handle defaults `start_handle=0`,
`end_handle=1` and append it to both endpoints' `connections`. -/
def importEdge (st : ImpState) (r : EdgeRecord) : ImpState :=
  match r.start_id.bind (lookupId st.mapping),
        r.end_id.bind (lookupId st.mapping) with
  | some sn, some en =>
    let e : Edge :=
      { eid := st.next, start_nid := sn,
        start_handle := r.start_handle.getD 0, end_nid := some en,
        end_handle := some (r.end_handle.getD 1), temporary_end := none }
    { scene :=
        { nodes := appendConn (appendConn st.scene.nodes sn st.next) en st.next,
          edges := st.scene.edges ++ [e] },
      mapping := st.mapping, next := st.next + 1, warnings := st.warnings }
  | _, _ => { st with warnings := st.warnings + 1 }

/-- The node loop of `import_from_json`. -/
def importNodes : ImpState → List NodeRecord → ImpState
  | st, [] => st
  | st, r :: rs => importNodes (importNode st r) rs

/-- The edge loop of `import_from_json`. -/
def importEdges : ImpState → List EdgeRecord → ImpState
  | st, [] => st
  | st, r :: rs => importEdges (importEdge st r) rs

/-- The post-`scene.clear()` part of `import_from_json`, replaying a parsed
document over the emptied scene. -/
def import_document (doc : Document) : ImpState :=
  importEdges
    (importNodes
      { scene := { nodes := [], edges := [] }, mapping := [], next := 0,
        warnings := 0 }
      doc.nodes)
    doc.edges

/-- The shape of the parsed JSON value: a dict (with `get("nodes", [])` and
`get("edges", [])` already applied), a bare list of node records, or any
other JSON value (for which both record lists stay empty). -/
inductive JsonData where
  | obj (nodes : List NodeRecord) (edges : List EdgeRecord)
  | arr (nodes : List NodeRecord)
  | other
deriving DecidableEq, Repr

/-- `nodes_data` / `edges_data` extraction of `import_from_json`. -/
def docOfData : JsonData → Document
  | .obj ns es => ⟨ns, es⟩
  | .arr ns => ⟨ns, []⟩
  | .other => ⟨[], []⟩

/-- Outcome of the file-selection plus `open`/`json.load` step of
`import_from_json`: dialog cancelled, an exception caught by the
`try`/`except` (reported via `QMessageBox.warning`), or a parsed value. -/
inductive LoadResult where
  | cancelled
  | failure (msg : String)
  | success (data : JsonData)
deriving DecidableEq, Repr

/-- `FlowView.import_from_json`: on cancellation or a load failure the
function returns before `self.scene.clear()`, leaving the scene as it was
(with the failure message shown to the user, returned here as the second
component); on success the scene is cleared and rebuilt from the document. -/
def import_from_json (res : LoadResult) (s : Scene) : Scene × Option String :=
  match res with
  | .cancelled => (s, none)
  | .failure msg => (s, some msg)
  | .success data => ((import_document (docOfData data)).scene, none)

/-- `FlowView.safe_remove_highlight`, the deferred un-highlight callback.
Its argument is `weak_item()`: `none` when the weak reference is dead.  The
body additionally checks `node.scene() is not None` (membership in the
scene) before clearing the highlight. -/
def safe_remove_highlight (s : Scene) (node : Option Nat) : Scene :=
  match node with
  | none => s
  | some nid =>
    if s.nodes.any (fun n => n.nid = nid) then
      { s with nodes := s.nodes.map (fun n =>
          if n.nid = nid then { n with highlighted := false } else n) }
    else s

/-! ## Closed forms of the import loops (proof infrastructure) -/

/-- The key under which the node created for record `r` (with identity `k`)
is entered into `node_mapping`. -/
def mkKey (k : Nat) (r : NodeRecord) : String :=
  match r.id with
  | some i => i
  | none => idStr k

/-- The nodes the node loop creates for `rs`, identities starting at `k`. -/
def mkNodes (k : Nat) : List NodeRecord → List Node
  | [] => []
  | r :: rs =>
    { nid := k, title := r.title.getD "Node",
      description := r.description.getD "", x := r.x.getD 0, y := r.y.getD 0,
      highlighted := false, connections := [] } :: mkNodes (k + 1) rs

/-- The `node_mapping` contents the node loop accumulates (most recent
binding first). -/
def mkMap (k : Nat) : List NodeRecord → List (String × Nat)
  | [] => []
  | r :: rs => mkMap (k + 1) rs ++ [(mkKey k r, k)]

/-- Whether both endpoint ids of an edge record resolve through the
mapping. -/
def resolves (m : List (String × Nat)) (r : EdgeRecord) : Bool :=
  (r.start_id.bind (lookupId m)).isSome && (r.end_id.bind (lookupId m)).isSome

/-- The edges the edge loop creates for `rs`, identities starting at `k`. -/
def mkEdges (m : List (String × Nat)) (k : Nat) : List EdgeRecord → List Edge
  | [] => []
  | r :: rs =>
    match r.start_id.bind (lookupId m), r.end_id.bind (lookupId m) with
    | some sn, some en =>
      { eid := k, start_nid := sn, start_handle := r.start_handle.getD 0,
        end_nid := some en, end_handle := some (r.end_handle.getD 1),
        temporary_end := none } :: mkEdges m (k + 1) rs
    | _, _ => mkEdges m k rs

theorem mkEdges_cons (m : List (String × Nat)) (k : Nat) (r : EdgeRecord)
    (rs : List EdgeRecord) :
    mkEdges m k (r :: rs)
      = match r.start_id.bind (lookupId m), r.end_id.bind (lookupId m) with
        | some sn, some en =>
          ({ eid := k, start_nid := sn, start_handle := r.start_handle.getD 0,
             end_nid := some en, end_handle := some (r.end_handle.getD 1),
             temporary_end := none } : Edge) :: mkEdges m (k + 1) rs
        | _, _ => mkEdges m k rs := rfl

/-- The fields of a node other than its mutable `connections` list. -/
def projNode (n : Node) : Nat × String × String × Int × Int × Bool :=
  (n.nid, n.title, n.description, n.x, n.y, n.highlighted)

/-- The persisted attributes of a node. -/
def nodeAttrs (n : Node) : String × String × Int × Int :=
  (n.title, n.description, n.x, n.y)

theorem appendConn_map_proj (ns : List Node) (a b : Nat) :
    (appendConn ns a b).map projNode = ns.map projNode := by
  rw [appendConn, List.map_map]
  apply List.map_congr_left
  intro n _
  by_cases h : n.nid = a <;> simp [projNode, h]

theorem appendConn_map_nid (ns : List Node) (a b : Nat) :
    (appendConn ns a b).map Node.nid = ns.map Node.nid := by
  rw [appendConn, List.map_map]
  apply List.map_congr_left
  intro n _
  by_cases h : n.nid = a <;> simp [h]

theorem importNodes_spec (rs : List NodeRecord) : ∀ st : ImpState,
    (importNodes st rs).scene.nodes = st.scene.nodes ++ mkNodes st.next rs ∧
    (importNodes st rs).scene.edges = st.scene.edges ∧
    (importNodes st rs).mapping = mkMap st.next rs ++ st.mapping ∧
    (importNodes st rs).next = st.next + rs.length ∧
    (importNodes st rs).warnings = st.warnings := by
  induction rs with
  | nil => intro st; simp [importNodes, mkNodes, mkMap]
  | cons r rs ih =>
    intro st
    have hstep : importNodes st (r :: rs) = importNodes (importNode st r) rs :=
      rfl
    rw [hstep]
    obtain ⟨e1, e2, e3, e4, e5⟩ := ih (importNode st r)
    refine ⟨?_, ?_, ?_, ?_, ?_⟩
    · rw [e1]
      simp [importNode, mkNodes, List.append_assoc]
    · rw [e2]; rfl
    · rw [e3]
      simp [importNode, mkMap, mkKey, List.append_assoc]
    · rw [e4]
      simp only [importNode, List.length_cons]
      omega
    · rw [e5]; rfl

theorem importEdge_resolved (st : ImpState) (r : EdgeRecord) (sn en : Nat)
    (h1 : r.start_id.bind (lookupId st.mapping) = some sn)
    (h2 : r.end_id.bind (lookupId st.mapping) = some en) :
    importEdge st r =
      { scene :=
          { nodes := appendConn (appendConn st.scene.nodes sn st.next) en
              st.next,
            edges := st.scene.edges ++
              [{ eid := st.next, start_nid := sn,
                 start_handle := r.start_handle.getD 0, end_nid := some en,
                 end_handle := some (r.end_handle.getD 1),
                 temporary_end := none }] },
        mapping := st.mapping, next := st.next + 1,
        warnings := st.warnings } := by
  unfold importEdge
  rw [h1, h2]

theorem importEdge_skipped (st : ImpState) (r : EdgeRecord)
    (h : resolves st.mapping r = false) :
    importEdge st r = { st with warnings := st.warnings + 1 } := by
  unfold importEdge
  cases h1 : r.start_id.bind (lookupId st.mapping) with
  | none => rfl
  | some sn =>
    cases h2 : r.end_id.bind (lookupId st.mapping) with
    | none => rfl
    | some en =>
      exfalso
      rw [resolves, h1, h2] at h
      simp at h

theorem importEdges_spec (rs : List EdgeRecord) : ∀ st : ImpState,
    (importEdges st rs).scene.edges
      = st.scene.edges ++ mkEdges st.mapping st.next rs ∧
    (importEdges st rs).scene.nodes.map projNode
      = st.scene.nodes.map projNode ∧
    (importEdges st rs).scene.nodes.map Node.nid
      = st.scene.nodes.map Node.nid ∧
    (importEdges st rs).mapping = st.mapping ∧
    (importEdges st rs).warnings
      = st.warnings
        + (rs.filter (fun r => !(resolves st.mapping r))).length := by
  induction rs with
  | nil => intro st; simp [importEdges, mkEdges]
  | cons r rs ih =>
    intro st
    have hstep : importEdges st (r :: rs) = importEdges (importEdge st r) rs :=
      rfl
    rw [hstep]
    by_cases hres : resolves st.mapping r = true
    · have hres2 := hres
      rw [resolves, Bool.and_eq_true] at hres2
      obtain ⟨i, h1⟩ := Option.isSome_iff_exists.mp hres2.1
      obtain ⟨j, h2⟩ := Option.isSome_iff_exists.mp hres2.2
      rw [importEdge_resolved st r i j h1 h2]
      obtain ⟨e1, e2, e3, e4, e5⟩ := ih _
      refine ⟨?_, ?_, ?_, ?_, ?_⟩
      · rw [e1]
        simp only [mkEdges_cons, h1, h2, List.append_assoc,
          List.singleton_append]
      · rw [e2]
        simp [appendConn_map_proj]
      · rw [e3]
        simp [appendConn_map_nid]
      · exact e4
      · rw [e5]
        simp [List.filter_cons, hres]
    · have hres2 : resolves st.mapping r = false := by
        simpa using hres
      rw [importEdge_skipped st r hres2]
      obtain ⟨e1, e2, e3, e4, e5⟩ := ih _
      refine ⟨?_, e2, e3, e4, ?_⟩
      · rw [e1]
        have : mkEdges st.mapping st.next (r :: rs)
            = mkEdges st.mapping st.next rs := by
          rw [mkEdges_cons]
          rw [resolves] at hres2
          cases hb1 : r.start_id.bind (lookupId st.mapping) with
          | none => rfl
          | some i =>
            cases hb2 : r.end_id.bind (lookupId st.mapping) with
            | none => rfl
            | some j => rw [hb1, hb2] at hres2; simp at hres2
        rw [this]
      · rw [e5]
        have hcons : (r :: rs).filter (fun r => !(resolves st.mapping r))
            = r :: rs.filter (fun r => !(resolves st.mapping r)) := by
          simp [List.filter_cons, hres2]
        rw [hcons]
        simp only [List.length_cons]
        omega

/-! ## Index machinery for the round-trip claim -/

/-- Index of the first occurrence of `t` in a list of identities. -/
def idxOf? : List Nat → Nat → Option Nat
  | [], _ => none
  | k :: ks, t => if k = t then some 0 else (idxOf? ks t).map (· + 1)

theorem idxOf?_eq_none (ks : List Nat) (t : Nat) (h : t ∉ ks) :
    idxOf? ks t = none := by
  induction ks with
  | nil => rfl
  | cons k ks ih =>
    simp only [List.mem_cons, not_or] at h
    simp [idxOf?, Ne.symm h.1, ih h.2]

theorem idxOf?_isSome_of_mem (ks : List Nat) (t : Nat) (h : t ∈ ks) :
    (idxOf? ks t).isSome := by
  induction ks with
  | nil => simp at h
  | cons k ks ih =>
    by_cases hk : k = t
    · simp [idxOf?, hk]
    · rcases List.mem_cons.mp h with h1 | h2
      · exact absurd h1.symm hk
      · have := ih h2
        simp only [idxOf?, if_neg hk]
        cases hx : idxOf? ks t with
        | none => rw [hx] at this; simp at this
        | some i => simp

theorem idxOf?_lt_length (ks : List Nat) (t i : Nat)
    (h : idxOf? ks t = some i) : i < ks.length := by
  induction ks generalizing i with
  | nil => simp [idxOf?] at h
  | cons k ks ih =>
    by_cases hk : k = t
    · simp only [idxOf?, if_pos hk, Option.some.injEq] at h
      simp only [List.length_cons]
      omega
    · simp only [idxOf?, if_neg hk] at h
      cases hx : idxOf? ks t with
      | none => rw [hx] at h; simp at h
      | some j =>
        rw [hx] at h
        simp only [Option.map_some', Option.some.injEq] at h
        have := ih j hx
        simp only [List.length_cons]
        omega

/-- The list `[k, k+1, ..., k+n-1]`. -/
def natRange (k : Nat) : Nat → List Nat
  | 0 => []
  | n + 1 => k :: natRange (k + 1) n

theorem natRange_length (n : Nat) : ∀ k, (natRange k n).length = n := by
  induction n with
  | zero => intro k; rfl
  | succ n ih => intro k; simp [natRange, ih]

theorem idxOf?_natRange (n : Nat) : ∀ k t, k ≤ t → t < k + n →
    idxOf? (natRange k n) t = some (t - k) := by
  induction n with
  | zero =>
    intro k t h1 h2
    exfalso
    omega
  | succ n ih =>
    intro k t h1 h2
    show idxOf? (k :: natRange (k + 1) n) t = some (t - k)
    by_cases h : k = t
    · subst h
      simp [idxOf?]
    · have hk : k + 1 ≤ t := by omega
      simp only [idxOf?, if_neg h]
      rw [ih (k + 1) t hk (by omega)]
      simp only [Option.map_some', Option.some.injEq]
      omega

theorem mkNodes_length (rs : List NodeRecord) : ∀ k,
    (mkNodes k rs).length = rs.length := by
  induction rs with
  | nil => intro k; rfl
  | cons r rs ih => intro k; simp [mkNodes, ih]

theorem mkNodes_map_nid (rs : List NodeRecord) : ∀ k,
    (mkNodes k rs).map Node.nid = natRange k rs.length := by
  induction rs with
  | nil => intro k; rfl
  | cons r rs ih => intro k; simp [mkNodes, natRange, ih]

theorem mkNodes_map_attrs (ns : List Node) : ∀ k,
    (mkNodes k (ns.map nodeRecordOf)).map nodeAttrs = ns.map nodeAttrs := by
  induction ns with
  | nil => intro k; rfl
  | cons n ns ih =>
    intro k
    simp [mkNodes, nodeRecordOf, nodeAttrs, ih]

theorem lookupId_append (l1 l2 : List (String × Nat)) (k : String) :
    lookupId (l1 ++ l2) k
      = match lookupId l1 k with
        | some v => some v
        | none => lookupId l2 k := by
  induction l1 with
  | nil => rfl
  | cons p ps ih =>
    by_cases h : p.1 = k
    · simp [lookupId, h]
    · simp [lookupId, h, ih]

theorem lookupId_mkMap (ns : List Node) : ∀ (k t : Nat),
    (ns.map Node.nid).Nodup →
    lookupId (mkMap k (ns.map nodeRecordOf)) (idStr t)
      = (idxOf? (ns.map Node.nid) t).map (· + k) := by
  induction ns with
  | nil => intro k t _; rfl
  | cons n ns ih =>
    intro k t hnd
    rw [List.map_cons, List.nodup_cons] at hnd
    have hkey : mkKey k (nodeRecordOf n) = idStr n.nid := rfl
    rw [List.map_cons]
    show lookupId (mkMap (k + 1) (ns.map nodeRecordOf)
        ++ [(mkKey k (nodeRecordOf n), k)]) (idStr t)
      = (idxOf? (n.nid :: ns.map Node.nid) t).map (· + k)
    rw [lookupId_append, hkey, ih (k + 1) t hnd.2]
    by_cases h : n.nid = t
    · subst h
      have hnone : idxOf? (ns.map Node.nid) n.nid = none :=
        idxOf?_eq_none _ _ hnd.1
      rw [hnone]
      simp [idxOf?, lookupId]
    · cases hx : idxOf? (ns.map Node.nid) t with
      | none =>
        have hne : idStr n.nid ≠ idStr t := fun hc => h (idStr_injective hc)
        simp [lookupId, hne, idxOf?, h, hx]
      | some i =>
        simp only [Option.map_some']
        simp only [idxOf?, if_neg h, hx, Option.map_some', Option.some.injEq]
        omega

/-! ## mkEdges lemmas -/

theorem mkEdges_cons_resolved (m : List (String × Nat)) (k : Nat)
    (r : EdgeRecord) (rs : List EdgeRecord) (sn en : Nat)
    (h1 : r.start_id.bind (lookupId m) = some sn)
    (h2 : r.end_id.bind (lookupId m) = some en) :
    mkEdges m k (r :: rs)
      = ({ eid := k, start_nid := sn, start_handle := r.start_handle.getD 0,
           end_nid := some en, end_handle := some (r.end_handle.getD 1),
           temporary_end := none } : Edge) :: mkEdges m (k + 1) rs := by
  rw [mkEdges_cons, h1, h2]

theorem mkEdges_cons_skipped (m : List (String × Nat)) (k : Nat)
    (r : EdgeRecord) (rs : List EdgeRecord) (h : resolves m r = false) :
    mkEdges m k (r :: rs) = mkEdges m k rs := by
  rw [mkEdges_cons]
  rw [resolves] at h
  cases h1 : r.start_id.bind (lookupId m) with
  | none => rfl
  | some i =>
    cases h2 : r.end_id.bind (lookupId m) with
    | none => rfl
    | some j =>
      rw [h1, h2] at h
      simp at h

theorem mkEdges_map_handles (m : List (String × Nat))
    (rs : List EdgeRecord) : ∀ k,
    (mkEdges m k rs).map
        (fun e => (e.start_handle, e.end_handle, e.end_nid.isSome))
      = (rs.filter (resolves m)).map
          (fun r => (r.start_handle.getD 0, some (r.end_handle.getD 1),
            true)) := by
  induction rs with
  | nil => intro k; rfl
  | cons r rs ih =>
    intro k
    by_cases hres : resolves m r = true
    · have h := hres
      rw [resolves, Bool.and_eq_true] at h
      obtain ⟨i, h1⟩ := Option.isSome_iff_exists.mp h.1
      obtain ⟨j, h2⟩ := Option.isSome_iff_exists.mp h.2
      rw [mkEdges_cons_resolved m k r rs i j h1 h2]
      simp [List.filter_cons, hres, ih]
    · have hres2 : resolves m r = false := by simpa using hres
      rw [mkEdges_cons_skipped m k r rs hres2]
      simp [List.filter_cons, hres2, ih]

theorem mkEdges_length (m : List (String × Nat)) (rs : List EdgeRecord)
    (k : Nat) :
    (mkEdges m k rs).length = (rs.filter (resolves m)).length := by
  have h := congrArg List.length (mkEdges_map_handles m rs k)
  simpa [List.length_map] using h

/-! ## Edge shapes (connectivity patterns) for the round-trip claim -/

/-- The shape of an edge relative to a scene: position of its source node in
the scene's node list, source handle, position of its destination node,
destination handle.  Two scenes with equal node-attribute lists and equal
edge-shape lists connect the same titles in the same way. -/
def edgeShape (s : Scene) (e : Edge) :
    Option Nat × Int × Option Nat × Option Int :=
  (idxOf? (s.nodes.map Node.nid) e.start_nid, e.start_handle,
   e.end_nid.bind (fun z => idxOf? (s.nodes.map Node.nid) z), e.end_handle)

/-- Replace the node positions of a shape by the titles found there. -/
def shapeTitles (titles : List String) :
    Option Nat × Int × Option Nat × Option Int →
      Option String × Int × Option String × Option Int
  | (a, sh, b, eh) =>
    (a.bind (fun i => titles[i]?), sh, b.bind (fun j => titles[j]?), eh)

/-- The title-level connectivity of an edge: which title connects from which
handle to which title at which handle. -/
def titleShape (s : Scene) (e : Edge) :
    Option String × Int × Option String × Option Int :=
  shapeTitles (s.nodes.map Node.title) (edgeShape s e)

/-- Boolean well-formedness of a finalized edge relative to a list of node
identities: its source resolves, its destination is set and resolves, and
its destination handle is set.  Every edge of a reachable scene that holds
only finalized edges satisfies this. -/
def wfEdge (N : List Nat) (e : Edge) : Bool :=
  N.contains e.start_nid &&
  (match e.end_nid with
   | some z => N.contains z
   | none => false) &&
  e.end_handle.isSome

theorem wfEdge_parts (N : List Nat) (e : Edge) (h : wfEdge N e = true) :
    e.start_nid ∈ N ∧ (∃ z, e.end_nid = some z ∧ z ∈ N) ∧
      e.end_handle.isSome := by
  rw [wfEdge, Bool.and_eq_true, Bool.and_eq_true] at h
  obtain ⟨⟨h1, h2⟩, h3⟩ := h
  refine ⟨by simpa using h1, ?_, h3⟩
  cases hz : e.end_nid with
  | none => rw [hz] at h2; simp at h2
  | some z =>
    rw [hz] at h2
    exact ⟨z, rfl, by simpa using h2⟩

theorem mkEdges_map_shape (m : List (String × Nat)) (N T : List Nat)
    (hm : ∀ t, lookupId m (idStr t) = idxOf? N t)
    (hT : ∀ v i, idxOf? N v = some i → idxOf? T i = some i) :
    ∀ (es : List Edge) (k : Nat),
      (∀ e ∈ es, (idxOf? N e.start_nid).isSome ∧
        (∃ z, e.end_nid = some z ∧ (idxOf? N z).isSome) ∧
        e.end_handle.isSome) →
      (mkEdges m k (es.map edgeRecordOf)).map
          (fun e => (idxOf? T e.start_nid, e.start_handle,
            e.end_nid.bind (fun z => idxOf? T z), e.end_handle))
        = es.map (fun e => (idxOf? N e.start_nid, e.start_handle,
            e.end_nid.bind (fun z => idxOf? N z), e.end_handle)) := by
  intro es
  induction es with
  | nil => intro k _; rfl
  | cons e es ih =>
    intro k hall
    obtain ⟨hs, ⟨z, hez, hz⟩, hh⟩ := hall e (List.mem_cons_self e es)
    obtain ⟨i, hi⟩ := Option.isSome_iff_exists.mp hs
    obtain ⟨j, hj⟩ := Option.isSome_iff_exists.mp hz
    obtain ⟨hv, hhv⟩ := Option.isSome_iff_exists.mp hh
    have h1 : (edgeRecordOf e).start_id.bind (lookupId m) = some i := by
      show lookupId m (idStr e.start_nid) = some i
      rw [hm, hi]
    have h2 : (edgeRecordOf e).end_id.bind (lookupId m) = some j := by
      show (e.end_nid.map idStr).bind (lookupId m) = some j
      rw [hez]
      show lookupId m (idStr z) = some j
      rw [hm, hj]
    rw [List.map_cons,
      mkEdges_cons_resolved m k (edgeRecordOf e) (es.map edgeRecordOf) i j
        h1 h2, List.map_cons, List.map_cons]
    congr 1
    · show (idxOf? T i, e.start_handle, idxOf? T j,
          some (e.end_handle.getD 1))
        = (idxOf? N e.start_nid, e.start_handle,
           e.end_nid.bind (fun z => idxOf? N z), e.end_handle)
      rw [hT _ _ hi, hT _ _ hj, hi, hez, hhv]
      show (some i, e.start_handle, some j, some hv)
        = (some i, e.start_handle, idxOf? N z, some hv)
      rw [hj]
    · exact ih (k + 1) (fun e2 he2 => hall e2 (List.mem_cons_of_mem _ he2))

theorem map_nodeAttrs_of_map_projNode (l1 l2 : List Node)
    (h : l1.map projNode = l2.map projNode) :
    l1.map nodeAttrs = l2.map nodeAttrs := by
  have h2 := congrArg
    (List.map (fun p : Nat × String × String × Int × Int × Bool =>
      (p.2.1, p.2.2.1, p.2.2.2.1, p.2.2.2.2.1))) h
  simpa [List.map_map, Function.comp_def, projNode, nodeAttrs] using h2

theorem map_title_of_map_nodeAttrs (l1 l2 : List Node)
    (h : l1.map nodeAttrs = l2.map nodeAttrs) :
    l1.map Node.title = l2.map Node.title := by
  have h2 := congrArg
    (List.map (fun p : String × String × Int × Int => p.1)) h
  simpa [List.map_map, Function.comp_def, nodeAttrs] using h2

/-! ## Helper lemmas -/

theorem mem_removeCurrentEdge (s : Scene) (c : Nat) (e : Edge)
    (he : e ∈ (removeCurrentEdge s c).edges) : e ∈ s.edges ∧ e.eid ≠ c := by
  unfold removeCurrentEdge at he
  by_cases h : s.edges.any (fun x => x.eid = c) = true
  · rw [if_pos h] at he
    simpa [List.mem_filter] using he
  · rw [if_neg h] at he
    refine ⟨he, fun hc => h (List.any_eq_true.mpr ⟨e, he, by simp [hc]⟩)⟩

/-! ## Claims about deletion -/

/-- A reachable scene with two nodes and one finalized edge between them,
both `connections` lists holding that edge. -/
def cexScene2 : Scene :=
  ⟨[⟨0, "A", "", 0, 0, false, [7]⟩, ⟨1, "B", "", 0, 0, false, [7]⟩],
   [⟨7, 0, 1, some 1, some 0, none⟩]⟩

/-- Claim C2 (counterexample): deleting node 0 destroys the incident edge 7,
yet the surviving node 1 still lists 7 in its incident-edge set — the code
never removes a destroyed edge from the other endpoint's `connections`. -/
theorem spec_C2_counterexample :
    (Node.delete cexScene2 0).edges = [] ∧
    ∃ n ∈ (Node.delete cexScene2 0).nodes, 7 ∈ n.connections := by decide

/-- Claim C2 (amended): deleting a node removes the node itself and exactly
the edges of its own incident-edge set from the scene and leaves every
other node untouched as a value — in particular the surviving endpoints'
incident-edge sets are NOT purged and keep referencing the destroyed
edges. -/
theorem spec_C2_node_delete (s : Scene) (nid : Nat) (n : Node)
    (hfind : s.nodes.find? (fun m => m.nid = nid) = some n) :
    (∀ e ∈ (Node.delete s nid).edges, e ∈ s.edges ∧ e.eid ∉ n.connections) ∧
    (∀ e ∈ s.edges, e.eid ∉ n.connections → e ∈ (Node.delete s nid).edges) ∧
    (∀ m ∈ (Node.delete s nid).nodes, m ∈ s.nodes ∧ m.nid ≠ nid) ∧
    (∀ m ∈ s.nodes, m.nid ≠ nid → m ∈ (Node.delete s nid).nodes) := by
  unfold Node.delete
  rw [hfind]
  refine ⟨?_, ?_, ?_, ?_⟩ <;> intro a ha <;>
    simp_all [List.mem_filter]

theorem spec_C2_node_delete_witness :
    (⟨8, 1, 1, some 0, some 0, none⟩ : Edge) ∈
      (Node.delete
        ⟨[⟨0, "A", "", 0, 0, false, [7]⟩, ⟨1, "B", "", 0, 0, false, [7, 8]⟩],
         [⟨7, 0, 1, some 1, some 0, none⟩, ⟨8, 1, 1, some 0, some 0, none⟩]⟩
        0).edges := by
  have h := spec_C2_node_delete
    ⟨[⟨0, "A", "", 0, 0, false, [7]⟩, ⟨1, "B", "", 0, 0, false, [7, 8]⟩],
     [⟨7, 0, 1, some 1, some 0, none⟩, ⟨8, 1, 1, some 0, some 0, none⟩]⟩
    0 ⟨0, "A", "", 0, 0, false, [7]⟩ (by decide)
  exact h.2.1 ⟨8, 1, 1, some 0, some 0, none⟩ (by decide) (by decide)

/-- A reachable scene for the edge-deletion claim. -/
def cexScene3 : Scene :=
  ⟨[⟨0, "A", "", 0, 0, false, [7]⟩, ⟨1, "B", "", 0, 0, false, [7]⟩],
   [⟨7, 0, 1, some 1, some 0, none⟩]⟩

/-- Claim C3 (counterexample): explicitly deleting the finalized edge 7
removes it from the scene but does NOT remove it from its endpoints'
incident-edge sets: node 0 still lists 7 afterwards. -/
theorem spec_C3_counterexample :
    (Edge.delete cexScene3 7).edges = [] ∧
    ∃ n ∈ (Edge.delete cexScene3 7).nodes, 7 ∈ n.connections := by decide

/-- Claim C3 (amended): explicit deletion of an edge removes exactly that
edge from the scene; the node list — endpoint nodes, their attributes AND
their incident-edge sets — is left byte-for-byte unchanged, so both
endpoints keep a stale reference to the deleted edge. -/
theorem spec_C3_edge_delete (s : Scene) (eid : Nat) :
    (Edge.delete s eid).nodes = s.nodes ∧
    (∀ e ∈ (Edge.delete s eid).edges, e ∈ s.edges ∧ e.eid ≠ eid) ∧
    (∀ e ∈ s.edges, e.eid ≠ eid → e ∈ (Edge.delete s eid).edges) := by
  unfold Edge.delete
  by_cases h : s.edges.any (fun e => e.eid = eid) = true
  · rw [if_pos h]
    refine ⟨rfl, ?_, ?_⟩ <;> intro e he <;> simp_all [List.mem_filter]
  · rw [if_neg h]
    refine ⟨rfl, fun e he => ⟨he, ?_⟩, fun e he _ => he⟩
    intro hc
    exact h (List.any_eq_true.mpr ⟨e, he, by simp [hc]⟩)

theorem spec_C3_edge_delete_witness :
    (⟨8, 1, 1, some 0, some 0, none⟩ : Edge) ∈
      (Edge.delete
        ⟨[⟨0, "A", "", 0, 0, false, [7, 8]⟩],
         [⟨7, 0, 1, some 0, some 0, none⟩, ⟨8, 1, 1, some 0, some 0, none⟩]⟩
        7).edges :=
  (spec_C3_edge_delete
    ⟨[⟨0, "A", "", 0, 0, false, [7, 8]⟩],
     [⟨7, 0, 1, some 0, some 0, none⟩, ⟨8, 1, 1, some 0, some 0, none⟩]⟩
    7).2.2 ⟨8, 1, 1, some 0, some 0, none⟩ (by decide) (by decide)

/-! ## Claims about the pointer handlers -/

/-- A reachable mid-drag scene: node 0 was highlighted by an earlier move,
the pointer is now over node 1. -/
def cexScene6 : Scene :=
  ⟨[⟨0, "A", "", 0, 0, true, []⟩, ⟨1, "B", "", 0, 0, false, []⟩],
   [⟨5, 0, 1, none, none, some (0, 0)⟩]⟩

/-- Claim C6 (counterexample): a pointer-move over node 1 while node 0 is
still highlighted leaves BOTH nodes highlighted — the handler only clears
old highlights when the pointer is over no node at all. -/
theorem spec_C6_counterexample :
    ((mouseMoveEvent cexScene6 (some 5) (some 1) (3, 3)).nodes.filter
        (fun n => n.highlighted)).length = 2 := by decide

/-- Claim C6 (amended): during an edge drag, a pointer-move over empty space
clears every node's highlight, while a pointer-move over a node highlights
that node and leaves every other node's highlight state unchanged — so
previously highlighted nodes stay highlighted and more than one node can be
highlighted at once. -/
theorem spec_C6_drag_highlight (s : Scene) (ce : Nat) (pos : Int × Int) :
    ((mouseMoveEvent s (some ce) none pos).nodes.all
        (fun n => !n.highlighted)) = true ∧
    (∀ nid : Nat,
      (mouseMoveEvent s (some ce) (some nid) pos).nodes.map
          (fun n => (n.nid, n.highlighted))
        = s.nodes.map
            (fun n => (n.nid, if n.nid = nid then true else n.highlighted))) := by
  constructor
  · simp only [mouseMoveEvent, List.all_eq_true, List.mem_map]
    rintro b ⟨n, _, rfl⟩
    by_cases h : n.highlighted <;> simp [h]
  · intro nid
    simp only [mouseMoveEvent, List.map_map]
    apply List.map_congr_left
    intro n _
    by_cases h : n.nid = nid <;> simp [h]

/-- A mid-drag scene about to receive a successful drop. -/
def wScene7 : Scene :=
  ⟨[⟨0, "A", "", 0, 0, false, []⟩, ⟨1, "B", "", 0, 0, false, []⟩],
   [⟨5, 0, 1, none, none, some (0, 0)⟩]⟩

/-- The finalized edge the drop of `spec_C7_witness` creates. -/
def wEdge7 : Edge := ⟨9, 0, 1, some 1, some 0, none⟩

/-- A document whose only edge record references the same node id on both
ends. -/
def cexDoc7 : Document :=
  ⟨[⟨some "1", some "A", some "", some 0, some 0⟩],
   [⟨some "1", some 1, some "1", some 0⟩]⟩

/-- Claim C7 (counterexample): importing a document whose edge record has
`start_id = end_id = "1"` creates a finalized self-loop — `import_from_json`
never compares the two resolved nodes, so the no-self-loop guarantee does
not extend to imported edges. -/
theorem spec_C7_counterexample :
    ∃ e ∈ (import_document cexDoc7).scene.edges,
      e.end_nid = some e.start_nid := by decide

/-- Claim C7 (amended): an edge created by releasing an edge drag never has
the same node as source and destination, because the origin node is
excluded from the target search; document import performs no such check, so
an imported edge record with equal, resolvable endpoint ids produces a
self-loop. -/
theorem spec_C7_no_selfloop_on_release (s : Scene) (origin : Nat) (oh : Int)
    (ceid : Nat) (hit : Option Nat) (nearHandle : Nat → Bool) (newEid : Nat) :
    ∀ e ∈ (mouseReleaseEvent s origin oh ceid hit nearHandle newEid).edges,
      e ∈ s.edges ∨ e.end_nid ≠ some e.start_nid := by
  intro e he
  unfold mouseReleaseEvent at he
  cases hit with
  | none => exact Or.inl (mem_removeCurrentEdge s ceid e he).1
  | some tgt =>
    simp only at he
    by_cases htgt : tgt ≠ origin
    · rw [if_pos htgt] at he
      cases hfind : findNearHandle nearHandle with
      | none =>
        rw [hfind] at he
        exact Or.inl (mem_removeCurrentEdge s ceid e he).1
      | some i =>
        rw [hfind] at he
        simp only [List.mem_append, List.mem_singleton] at he
        cases he with
        | inl h => exact Or.inl (mem_removeCurrentEdge s ceid e h).1
        | inr h =>
          subst h
          exact Or.inr (by simpa using fun hc => htgt hc)
    · rw [if_neg htgt] at he
      exact Or.inl (mem_removeCurrentEdge s ceid e he).1

theorem spec_C7_witness :
    wEdge7 ∈ (mouseReleaseEvent wScene7 0 1 5 (some 1) (fun _ => true) 9).edges ∧
    (wEdge7 ∈ wScene7.edges ∨ wEdge7.end_nid ≠ some wEdge7.start_nid) :=
  ⟨by decide,
   spec_C7_no_selfloop_on_release wScene7 0 1 5 (some 1) (fun _ => true) 9
     wEdge7 (by decide)⟩

/-- Claim C8: the scene after any release of an edge drag contains only
finalized edges (provided the only provisional edge was the one being
dragged), and the exported document only ever contains records produced
from edges whose destination node is set — an edge with a null destination
is never exported. -/
theorem spec_C8_no_null_destination (s : Scene) (origin : Nat) (oh : Int)
    (ceid : Nat) (hit : Option Nat) (nearHandle : Nat → Bool) (newEid : Nat)
    (hprov : ∀ e ∈ s.edges, e.end_nid = none → e.eid = ceid) :
    (∀ e ∈ (mouseReleaseEvent s origin oh ceid hit nearHandle newEid).edges,
        e.end_nid.isSome) ∧
    (∀ r ∈ (export_to_json
        (mouseReleaseEvent s origin oh ceid hit nearHandle newEid)).edges,
        r.end_id.isSome) ∧
    (∀ s0 : Scene, ∀ r ∈ (export_to_json s0).edges,
        ∃ e ∈ s0.edges, e.end_nid.isSome ∧ r = edgeRecordOf e) := by
  have hexp : ∀ s0 : Scene, ∀ r ∈ (export_to_json s0).edges,
      ∃ e ∈ s0.edges, e.end_nid.isSome ∧ r = edgeRecordOf e := by
    intro s0 r hr
    simp only [export_to_json, List.mem_map, List.mem_filter] at hr
    obtain ⟨e, ⟨he, hsome⟩, rfl⟩ := hr
    exact ⟨e, he, hsome, rfl⟩
  have hfin : ∀ e ∈ (mouseReleaseEvent s origin oh ceid hit nearHandle
      newEid).edges, e.end_nid.isSome := by
    intro e he
    have hold : e ∈ s.edges ∧ e.eid ≠ ceid → e.end_nid.isSome := by
      rintro ⟨h1, h2⟩
      refine Option.isSome_iff_ne_none.mpr (fun hn => h2 (hprov e h1 hn))
    unfold mouseReleaseEvent at he
    cases hit with
    | none => exact hold (mem_removeCurrentEdge s ceid e he)
    | some tgt =>
      simp only at he
      by_cases htgt : tgt ≠ origin
      · rw [if_pos htgt] at he
        cases hfind : findNearHandle nearHandle with
        | none =>
          rw [hfind] at he
          exact hold (mem_removeCurrentEdge s ceid e he)
        | some i =>
          rw [hfind] at he
          simp only [List.mem_append, List.mem_singleton] at he
          cases he with
          | inl h => exact hold (mem_removeCurrentEdge s ceid e h)
          | inr h => subst h; rfl
      · rw [if_neg htgt] at he
        exact hold (mem_removeCurrentEdge s ceid e he)
  refine ⟨hfin, ?_, hexp⟩
  intro r hr
  obtain ⟨e, he, hsome, rfl⟩ := hexp _ r hr
  simpa [edgeRecordOf, Option.isSome_map] using hsome

theorem spec_C8_witness :
    (⟨7, 0, 1, some 1, some 0, none⟩ : Edge).end_nid.isSome :=
  (spec_C8_no_null_destination
    ⟨[⟨0, "A", "", 0, 0, false, [7]⟩, ⟨1, "B", "", 0, 0, false, [7]⟩],
     [⟨7, 0, 1, some 1, some 0, none⟩, ⟨5, 0, 1, none, none, some (0, 0)⟩]⟩
    0 1 5 none (fun _ => false) 9 (by decide)).1
    ⟨7, 0, 1, some 1, some 0, none⟩ (by decide)

/-! ## Claims about the document codec -/

/-- Claim C4: importing a document creates a node for every node record and
a finalized edge for exactly those edge records whose two ids resolve
through the node mapping; each unresolvable record is skipped with one
warning logged, processing continues past it, and no unhandled error is
raised (the import is total). -/
theorem spec_C4_import_skips_unresolvable (doc : Document) :
    (import_document doc).scene.nodes.length = doc.nodes.length ∧
    (import_document doc).scene.edges.length
      = (doc.edges.filter (resolves
          (importNodes ⟨⟨[], []⟩, [], 0, 0⟩ doc.nodes).mapping)).length ∧
    (import_document doc).warnings
      = (doc.edges.filter (fun r => !(resolves
          (importNodes ⟨⟨[], []⟩, [], 0, 0⟩ doc.nodes).mapping r))).length := by
  obtain ⟨n1, n2, n3, n4, n5⟩ :=
    importNodes_spec doc.nodes ⟨⟨[], []⟩, [], 0, 0⟩
  obtain ⟨f1, f2, f3, f4, f5⟩ := importEdges_spec doc.edges
    (importNodes ⟨⟨[], []⟩, [], 0, 0⟩ doc.nodes)
  have hid : import_document doc
      = importEdges (importNodes ⟨⟨[], []⟩, [], 0, 0⟩ doc.nodes) doc.edges :=
    rfl
  refine ⟨?_, ?_, ?_⟩
  · rw [hid]
    have hlen := congrArg List.length f2
    rw [List.length_map, List.length_map] at hlen
    rw [hlen]
    have h1 := congrArg List.length n1
    simpa [mkNodes_length] using h1
  · rw [hid, f1]
    have h0 : (importNodes ⟨⟨[], []⟩, [], 0, 0⟩ doc.nodes).scene.edges
        = [] := by simpa using n2
    rw [h0]
    simp [mkEdges_length]
  · rw [hid, f5]
    have h0 : (importNodes ⟨⟨[], []⟩, [], 0, 0⟩ doc.nodes).warnings = 0 := by
      simpa using n5
    rw [h0]
    simp

/-- Claim C10: every edge created by import is finalized, and its handles
are exactly the record's values with a missing `start_handle` defaulting to
0 and a missing `end_handle` defaulting to 1 — whatever the supplied values
are, with no range validation. -/
theorem spec_C10_import_handle_defaults (doc : Document) :
    (import_document doc).scene.edges.map
        (fun e => (e.start_handle, e.end_handle, e.end_nid.isSome))
      = (doc.edges.filter (resolves
          (importNodes ⟨⟨[], []⟩, [], 0, 0⟩ doc.nodes).mapping)).map
          (fun r => (r.start_handle.getD 0, some (r.end_handle.getD 1),
            true)) := by
  obtain ⟨n1, n2, n3, n4, n5⟩ :=
    importNodes_spec doc.nodes ⟨⟨[], []⟩, [], 0, 0⟩
  obtain ⟨f1, f2, f3, f4, f5⟩ := importEdges_spec doc.edges
    (importNodes ⟨⟨[], []⟩, [], 0, 0⟩ doc.nodes)
  have hid : import_document doc
      = importEdges (importNodes ⟨⟨[], []⟩, [], 0, 0⟩ doc.nodes) doc.edges :=
    rfl
  rw [hid, f1]
  have h0 : (importNodes ⟨⟨[], []⟩, [], 0, 0⟩ doc.nodes).scene.edges = [] := by
    simpa using n2
  rw [h0]
  simp [mkEdges_map_handles]

/-- Claim C1: exporting a well-formed graph of nodes and finalized edges to
a document and importing that document yields a graph with the same node
count, the same edge count, the same per-node (title, description, x, y)
list, and the same connectivity pattern — both as node positions with
handle indices and as titles with handle indices — even though the node
ids themselves are remapped. -/
theorem spec_C1_export_import_roundtrip (s : Scene)
    (hnd : (s.nodes.map Node.nid).Nodup)
    (hwf : ∀ e ∈ s.edges, wfEdge (s.nodes.map Node.nid) e = true) :
    (import_document (export_to_json s)).scene.nodes.length
        = s.nodes.length ∧
    (import_document (export_to_json s)).scene.edges.length
        = s.edges.length ∧
    (import_document (export_to_json s)).scene.nodes.map nodeAttrs
        = s.nodes.map nodeAttrs ∧
    (import_document (export_to_json s)).scene.edges.map
        (edgeShape (import_document (export_to_json s)).scene)
      = s.edges.map (edgeShape s) ∧
    (import_document (export_to_json s)).scene.edges.map
        (titleShape (import_document (export_to_json s)).scene)
      = s.edges.map (titleShape s) := by
  obtain ⟨n1, n2, n3, n4, n5⟩ :=
    importNodes_spec (export_to_json s).nodes ⟨⟨[], []⟩, [], 0, 0⟩
  obtain ⟨f1, f2, f3, f4, f5⟩ :=
    importEdges_spec (export_to_json s).edges
      (importNodes ⟨⟨[], []⟩, [], 0, 0⟩ (export_to_json s).nodes)
  have hid : import_document (export_to_json s)
      = importEdges
          (importNodes ⟨⟨[], []⟩, [], 0, 0⟩ (export_to_json s).nodes)
          (export_to_json s).edges := rfl
  have hdn : (export_to_json s).nodes = s.nodes.map nodeRecordOf := rfl
  have hfilter : s.edges.filter (fun e => e.end_nid.isSome) = s.edges := by
    rw [List.filter_eq_self]
    intro e he
    obtain ⟨_, ⟨z, hez, _⟩, _⟩ := wfEdge_parts _ _ (hwf e he)
    simp [hez]
  have hde : (export_to_json s).edges = s.edges.map edgeRecordOf := by
    show (s.edges.filter (fun e => e.end_nid.isSome)).map edgeRecordOf
      = s.edges.map edgeRecordOf
    rw [hfilter]
  rw [hid, hdn, hde]
  rw [hdn] at n1 n2 n3 n4
  rw [hdn, hde] at f1 f2 f3
  have hnn : (importNodes ⟨⟨[], []⟩, [], 0, 0⟩
      (s.nodes.map nodeRecordOf)).scene.nodes
      = mkNodes 0 (s.nodes.map nodeRecordOf) := by simpa using n1
  have h0e : (importNodes ⟨⟨[], []⟩, [], 0, 0⟩
      (s.nodes.map nodeRecordOf)).scene.edges = [] := by simpa using n2
  have hmapv : (importNodes ⟨⟨[], []⟩, [], 0, 0⟩
      (s.nodes.map nodeRecordOf)).mapping
      = mkMap 0 (s.nodes.map nodeRecordOf) := by simpa using n3
  have hnext : (importNodes ⟨⟨[], []⟩, [], 0, 0⟩
      (s.nodes.map nodeRecordOf)).next = s.nodes.length := by
    simpa [List.length_map] using n4
  have hproj : (importEdges (importNodes ⟨⟨[], []⟩, [], 0, 0⟩
      (s.nodes.map nodeRecordOf)) (s.edges.map edgeRecordOf)).scene.nodes.map
        projNode
      = (mkNodes 0 (s.nodes.map nodeRecordOf)).map projNode := by
    rw [f2, hnn]
  have hattrs : (importEdges (importNodes ⟨⟨[], []⟩, [], 0, 0⟩
      (s.nodes.map nodeRecordOf)) (s.edges.map edgeRecordOf)).scene.nodes.map
        nodeAttrs
      = s.nodes.map nodeAttrs :=
    (map_nodeAttrs_of_map_projNode _ _ hproj).trans
      (mkNodes_map_attrs s.nodes 0)
  have hTnid : (importEdges (importNodes ⟨⟨[], []⟩, [], 0, 0⟩
      (s.nodes.map nodeRecordOf)) (s.edges.map edgeRecordOf)).scene.nodes.map
        Node.nid
      = natRange 0 s.nodes.length := by
    rw [f3, hnn, mkNodes_map_nid, List.length_map]
  have hm : ∀ t, lookupId (importNodes ⟨⟨[], []⟩, [], 0, 0⟩
      (s.nodes.map nodeRecordOf)).mapping (idStr t)
      = idxOf? (s.nodes.map Node.nid) t := by
    intro t
    rw [hmapv, lookupId_mkMap s.nodes 0 t hnd]
    cases hx : idxOf? (s.nodes.map Node.nid) t <;> simp
  have hT : ∀ v i, idxOf? (s.nodes.map Node.nid) v = some i →
      idxOf? ((importEdges (importNodes ⟨⟨[], []⟩, [], 0, 0⟩
        (s.nodes.map nodeRecordOf)) (s.edges.map
          edgeRecordOf)).scene.nodes.map Node.nid) i = some i := by
    intro v i hvi
    rw [hTnid]
    have hlt := idxOf?_lt_length _ _ _ hvi
    rw [List.length_map] at hlt
    have h2 := idxOf?_natRange s.nodes.length 0 i (by omega) (by omega)
    simpa using h2
  have hedges : (importEdges (importNodes ⟨⟨[], []⟩, [], 0, 0⟩
      (s.nodes.map nodeRecordOf)) (s.edges.map edgeRecordOf)).scene.edges
      = mkEdges (importNodes ⟨⟨[], []⟩, [], 0, 0⟩
          (s.nodes.map nodeRecordOf)).mapping s.nodes.length
          (s.edges.map edgeRecordOf) := by
    rw [f1, h0e, hnext]
    simp
  have hcond : ∀ e ∈ s.edges,
      (idxOf? (s.nodes.map Node.nid) e.start_nid).isSome ∧
      (∃ z, e.end_nid = some z ∧ (idxOf? (s.nodes.map Node.nid) z).isSome) ∧
      e.end_handle.isSome := by
    intro e he
    obtain ⟨h1, ⟨z, hez, hz⟩, h3⟩ := wfEdge_parts _ _ (hwf e he)
    exact ⟨idxOf?_isSome_of_mem _ _ h1,
      ⟨z, hez, idxOf?_isSome_of_mem _ _ hz⟩, h3⟩
  have hshape := mkEdges_map_shape
    (importNodes ⟨⟨[], []⟩, [], 0, 0⟩ (s.nodes.map nodeRecordOf)).mapping
    (s.nodes.map Node.nid)
    ((importEdges (importNodes ⟨⟨[], []⟩, [], 0, 0⟩
      (s.nodes.map nodeRecordOf)) (s.edges.map edgeRecordOf)).scene.nodes.map
        Node.nid)
    hm hT s.edges s.nodes.length hcond
  have hshape2 : (importEdges (importNodes ⟨⟨[], []⟩, [], 0, 0⟩
      (s.nodes.map nodeRecordOf)) (s.edges.map edgeRecordOf)).scene.edges.map
        (edgeShape (importEdges (importNodes ⟨⟨[], []⟩, [], 0, 0⟩
          (s.nodes.map nodeRecordOf)) (s.edges.map edgeRecordOf)).scene)
      = s.edges.map (edgeShape s) := by
    rw [hedges]
    exact hshape
  have htitle : (importEdges (importNodes ⟨⟨[], []⟩, [], 0, 0⟩
      (s.nodes.map nodeRecordOf)) (s.edges.map edgeRecordOf)).scene.nodes.map
        Node.title
      = s.nodes.map Node.title :=
    map_title_of_map_nodeAttrs _ _ hattrs
  have hts : ∀ sc : Scene, sc.edges.map (titleShape sc)
      = (sc.edges.map (edgeShape sc)).map
          (shapeTitles (sc.nodes.map Node.title)) := by
    intro sc
    rw [List.map_map]
    rfl
  refine ⟨?_, ?_, hattrs, hshape2, ?_⟩
  · have h := congrArg List.length hattrs
    simpa [List.length_map] using h
  · have h := congrArg List.length hshape2
    simpa [List.length_map] using h
  · rw [hts, hts, hshape2, htitle]

/-- A concrete well-formed two-node one-edge scene for the round-trip
witness. -/
def wScene1 : Scene :=
  ⟨[⟨10, "A", "d1", 0, 0, false, [7]⟩, ⟨20, "B", "d2", 5, 6, false, [7]⟩],
   [⟨7, 10, 1, some 20, some 0, none⟩]⟩

theorem spec_C1_witness :
    (import_document (export_to_json wScene1)).scene.nodes.length
        = wScene1.nodes.length ∧
    (import_document (export_to_json wScene1)).scene.edges.length
        = wScene1.edges.length ∧
    (import_document (export_to_json wScene1)).scene.nodes.map nodeAttrs
        = wScene1.nodes.map nodeAttrs ∧
    (import_document (export_to_json wScene1)).scene.edges.map
        (edgeShape (import_document (export_to_json wScene1)).scene)
      = wScene1.edges.map (edgeShape wScene1) ∧
    (import_document (export_to_json wScene1)).scene.edges.map
        (titleShape (import_document (export_to_json wScene1)).scene)
      = wScene1.edges.map (titleShape wScene1) :=
  spec_C1_export_import_roundtrip wScene1 (by decide) (by decide)

/-! ## Claims about error handling and the deferred callback -/

/-- Claim C5: a cancelled dialog or a failed read/parse leaves the scene
exactly as it was (the failure being reported, not raised), and on a
successful parse the result does not depend on the pre-import scene at all —
the clear happens only after read and parse both succeeded. -/
theorem spec_C5_import_error_handling (s : Scene) (msg : String)
    (data : JsonData) :
    import_from_json (.failure msg) s = (s, some msg) ∧
    import_from_json .cancelled s = (s, none) ∧
    (∀ s2 : Scene,
      (import_from_json (.success data) s).1
        = (import_from_json (.success data) s2).1) :=
  ⟨rfl, rfl, fun _ => rfl⟩

/-- Claim C9: the deferred un-highlight callback is a no-op when the weak
reference is dead (`none`) or when the referenced node is no longer in the
scene; otherwise it clears exactly that node's highlight and changes
nothing else. -/
theorem spec_C9_safe_remove_highlight (s : Scene) (node : Option Nat) :
    (safe_remove_highlight s none = s) ∧
    (∀ nid, node = some nid → (∀ n ∈ s.nodes, n.nid ≠ nid) →
        safe_remove_highlight s node = s) ∧
    (∀ nid, node = some nid → (s.nodes.any (fun n => n.nid = nid)) = true →
        (safe_remove_highlight s node).edges = s.edges ∧
        (safe_remove_highlight s node).nodes.map
            (fun n => (n.nid, n.title, n.description, n.x, n.y,
              n.connections, n.highlighted))
          = s.nodes.map
              (fun n => (n.nid, n.title, n.description, n.x, n.y,
                n.connections,
                if n.nid = nid then false else n.highlighted))) := by
  refine ⟨rfl, ?_, ?_⟩
  · rintro nid rfl hall
    simp only [safe_remove_highlight]
    rw [if_neg]
    intro hany
    obtain ⟨n, hn, h⟩ := List.any_eq_true.mp hany
    exact hall n hn (by simpa using h)
  · rintro nid rfl hany
    simp only [safe_remove_highlight]
    rw [if_pos hany]
    refine ⟨rfl, ?_⟩
    simp only [List.map_map]
    apply List.map_congr_left
    intro n _
    by_cases h : n.nid = nid <;> simp [h]

theorem spec_C9_witness :
    (safe_remove_highlight (⟨[⟨0, "A", "", 0, 0, true, []⟩], []⟩ : Scene)
        (some 5) = ⟨[⟨0, "A", "", 0, 0, true, []⟩], []⟩) ∧
    (safe_remove_highlight (⟨[⟨0, "A", "", 0, 0, true, []⟩], []⟩ : Scene)
        (some 0)).nodes.map
        (fun n => (n.nid, n.title, n.description, n.x, n.y,
          n.connections, n.highlighted))
      = (⟨[⟨0, "A", "", 0, 0, true, []⟩], []⟩ : Scene).nodes.map
          (fun n => (n.nid, n.title, n.description, n.x, n.y, n.connections,
            if n.nid = 0 then false else n.highlighted)) :=
  ⟨(spec_C9_safe_remove_highlight ⟨[⟨0, "A", "", 0, 0, true, []⟩], []⟩
      (some 5)).2.1 5 rfl (by decide),
   ((spec_C9_safe_remove_highlight ⟨[⟨0, "A", "", 0, 0, true, []⟩], []⟩
      (some 0)).2.2 0 rfl (by decide)).2⟩

end FlowBuilder
